import Mathlib

/-!
Verification of the genesis-bundle assembly and module codec
(`crates/sui-config/src/genesis.rs`) and of the calibration-report
scraper (`crates/sui-framework/src/cost_calib/runner.rs`).

Machine bytes are modelled as `Nat` with explicit `< 256` bounds;
Rust strings handled character-wise are modelled as `List Char`;
fallible operations return `Option` or `Except String`.
-/

/-! ## Base64 codec (model of `base64ct::Base64`, standard alphabet with padding) -/

namespace Base64

/-- Character of the standard base64 alphabet at index `n` (for `n < 64`). -/
def b64ch (n : Nat) : Char :=
  if n < 26 then Char.ofNat (65 + n)
  else if n < 52 then Char.ofNat (71 + n)
  else if n < 62 then Char.ofNat (n - 4)
  else if n = 62 then '+'
  else '/'

/-- Index of a character in the standard base64 alphabet, `none` if absent. -/
def b64val (c : Char) : Option Nat :=
  if 65 ≤ c.toNat ∧ c.toNat ≤ 90 then some (c.toNat - 65)
  else if 97 ≤ c.toNat ∧ c.toNat ≤ 122 then some (c.toNat - 71)
  else if 48 ≤ c.toNat ∧ c.toNat ≤ 57 then some (c.toNat + 4)
  else if c = '+' then some 62
  else if c = '/' then some 63
  else none

/-- Base64-encode a byte sequence, three bytes to four characters,
with `=` padding on a final one- or two-byte group. -/
def encodeCore : List Nat → List Char
  | [] => []
  | [b1] => [b64ch (b1 / 4), b64ch (b1 % 4 * 16), '=', '=']
  | [b1, b2] => [b64ch (b1 / 4), b64ch (b1 % 4 * 16 + b2 / 16), b64ch (b2 % 16 * 4), '=']
  | b1 :: b2 :: b3 :: rest =>
    b64ch (b1 / 4) :: b64ch (b1 % 4 * 16 + b2 / 16) :: b64ch (b2 % 16 * 4 + b3 / 64) ::
      b64ch (b3 % 64) :: encodeCore rest

/-- Strict base64 decoding: requires length divisible by four, alphabet
characters, padding only in a final group, and zero trailing bits
(`base64ct` rejects non-canonical encodings). -/
def decodeCore : List Char → Option (List Nat)
  | [] => some []
  | c1 :: c2 :: c3 :: c4 :: rest =>
    match b64val c1, b64val c2 with
    | some v1, some v2 =>
      if c3 = '=' then
        if c4 = '=' ∧ rest = [] ∧ v2 % 16 = 0 then some [v1 * 4 + v2 / 16] else none
      else
        match b64val c3 with
        | some v3 =>
          if c4 = '=' then
            if rest = [] ∧ v3 % 4 = 0 then
              some [v1 * 4 + v2 / 16, v2 % 16 * 16 + v3 / 4]
            else none
          else
            match b64val c4 with
            | some v4 =>
              match decodeCore rest with
              | some bs =>
                some ((v1 * 4 + v2 / 16) :: (v2 % 16 * 16 + v3 / 4) :: (v3 % 4 * 64 + v4) :: bs)
              | none => none
            | none => none
        | none => none
    | _, _ => none
  | _ => none

/-- Model of `base64ct::Base64::encode_string`. -/
def encode_string (bs : List Nat) : String :=
  String.mk (encodeCore bs)

/-- Model of `base64ct::Base64::decode_vec`. -/
def decode_vec (s : String) : Except String (List Nat) :=
  match decodeCore s.data with
  | some bs => .ok bs
  | none => .error "invalid Base64"

theorem b64val_b64ch : ∀ n < 64, b64val (b64ch n) = some n := by decide

theorem b64ch_ne_pad : ∀ n < 64, b64ch n ≠ '=' := by decide

theorem b64val_lt (c : Char) (v : Nat) (h : b64val c = some v) : v < 64 := by
  unfold b64val at h
  split_ifs at h <;> simp_all <;> omega

theorem b64ch_b64val (c : Char) (v : Nat) (h : b64val c = some v) : b64ch v = c := by
  unfold b64val at h
  split_ifs at h with h1 h2 h3 h4 h5
  · obtain ⟨ha, hb⟩ := h1
    have hv := Option.some.inj h
    subst hv
    unfold b64ch
    rw [if_pos (by omega)]
    have e : 65 + (c.toNat - 65) = c.toNat := by omega
    rw [e, Char.ofNat_toNat]
  · obtain ⟨ha, hb⟩ := h2
    have hv := Option.some.inj h
    subst hv
    unfold b64ch
    rw [if_neg (by omega), if_pos (by omega)]
    have e : 71 + (c.toNat - 71) = c.toNat := by omega
    rw [e, Char.ofNat_toNat]
  · obtain ⟨ha, hb⟩ := h3
    have hv := Option.some.inj h
    subst hv
    unfold b64ch
    rw [if_neg (by omega), if_neg (by omega), if_pos (by omega)]
    have e : c.toNat + 4 - 4 = c.toNat := by omega
    rw [e, Char.ofNat_toNat]
  · have hv := Option.some.inj h
    subst hv
    subst h4
    decide
  · have hv := Option.some.inj h
    subst hv
    subst h5
    decide

/-- Encoding then strictly decoding a byte sequence returns it unchanged. -/
theorem decodeCore_encodeCore (bs : List Nat) (h : ∀ b ∈ bs, b < 256) :
    decodeCore (encodeCore bs) = some bs := by
  induction bs using encodeCore.induct with
  | case1 => simp [encodeCore, decodeCore]
  | case2 b1 =>
    have hb1 : b1 < 256 := h b1 (by simp)
    have e1 : b64val (b64ch (b1 / 4)) = some (b1 / 4) := b64val_b64ch _ (by omega)
    have e2 : b64val (b64ch (b1 % 4 * 16)) = some (b1 % 4 * 16) := b64val_b64ch _ (by omega)
    simp only [encodeCore, decodeCore, e1, e2]
    rw [if_pos trivial, if_pos (show True ∧ True ∧ b1 % 4 * 16 % 16 = 0 from
      ⟨trivial, trivial, by omega⟩)]
    have e : b1 / 4 * 4 + b1 % 4 * 16 / 16 = b1 := by omega
    rw [e]
  | case3 b1 b2 =>
    have hb1 : b1 < 256 := h b1 (by simp)
    have hb2 : b2 < 256 := h b2 (by simp)
    have e1 : b64val (b64ch (b1 / 4)) = some (b1 / 4) := b64val_b64ch _ (by omega)
    have e2 : b64val (b64ch (b1 % 4 * 16 + b2 / 16)) = some (b1 % 4 * 16 + b2 / 16) :=
      b64val_b64ch _ (by omega)
    have e3 : b64val (b64ch (b2 % 16 * 4)) = some (b2 % 16 * 4) := b64val_b64ch _ (by omega)
    have ne3 : b64ch (b2 % 16 * 4) ≠ '=' := b64ch_ne_pad _ (by omega)
    simp only [encodeCore, decodeCore, e1, e2, e3, if_neg ne3]
    rw [if_pos trivial, if_pos (show True ∧ b2 % 16 * 4 % 4 = 0 from ⟨trivial, by omega⟩)]
    have r1 : b1 / 4 * 4 + (b1 % 4 * 16 + b2 / 16) / 16 = b1 := by omega
    have r2 : (b1 % 4 * 16 + b2 / 16) % 16 * 16 + b2 % 16 * 4 / 4 = b2 := by omega
    rw [r1, r2]
  | case4 b1 b2 b3 rest ih =>
    have hb1 : b1 < 256 := h b1 (by simp)
    have hb2 : b2 < 256 := h b2 (by simp)
    have hb3 : b3 < 256 := h b3 (by simp)
    have hrest : ∀ b ∈ rest, b < 256 := fun b hb => h b (by simp [hb])
    have e1 : b64val (b64ch (b1 / 4)) = some (b1 / 4) := b64val_b64ch _ (by omega)
    have e2 : b64val (b64ch (b1 % 4 * 16 + b2 / 16)) = some (b1 % 4 * 16 + b2 / 16) :=
      b64val_b64ch _ (by omega)
    have e3 : b64val (b64ch (b2 % 16 * 4 + b3 / 64)) = some (b2 % 16 * 4 + b3 / 64) :=
      b64val_b64ch _ (by omega)
    have e4 : b64val (b64ch (b3 % 64)) = some (b3 % 64) := b64val_b64ch _ (by omega)
    have ne3 : b64ch (b2 % 16 * 4 + b3 / 64) ≠ '=' := b64ch_ne_pad _ (by omega)
    have ne4 : b64ch (b3 % 64) ≠ '=' := b64ch_ne_pad _ (by omega)
    simp only [encodeCore, decodeCore, e1, e2, e3, e4, if_neg ne3, if_neg ne4, ih hrest]
    have r1 : b1 / 4 * 4 + (b1 % 4 * 16 + b2 / 16) / 16 = b1 := by omega
    have r2 : (b1 % 4 * 16 + b2 / 16) % 16 * 16 + (b2 % 16 * 4 + b3 / 64) / 4 = b2 := by omega
    have r3 : (b2 % 16 * 4 + b3 / 64) % 4 * 64 + b3 % 64 = b3 := by omega
    rw [r1, r2, r3]

/-- Strict decoding is canonical: a successful decode means the input is
exactly the base64 encoding of the result, and the result is a byte sequence. -/
theorem encodeCore_decodeCore (cs : List Char) (bs : List Nat) (h : decodeCore cs = some bs) :
    encodeCore bs = cs ∧ ∀ b ∈ bs, b < 256 := by
  induction cs using decodeCore.induct generalizing bs with
  | case1 =>
    simp only [decodeCore, Option.some.injEq] at h
    subst h
    exact ⟨rfl, by simp⟩
  | case2 c1 c2 c4 rest v1 v2 hv2 hv1 hcond =>
    obtain ⟨hc4, hrest, hm⟩ := hcond
    subst hc4
    subst hrest
    have hl1 : v1 < 64 := b64val_lt _ _ hv1
    have hl2 : v2 < 64 := b64val_lt _ _ hv2
    simp [decodeCore, hv1, hv2, hm] at h
    subst h
    refine ⟨?_, ?_⟩
    · have e1 : (v1 * 4 + v2 / 16) / 4 = v1 := by omega
      have e2 : (v1 * 4 + v2 / 16) % 4 * 16 = v2 := by omega
      simp [encodeCore, e1, e2, b64ch_b64val _ _ hv1, b64ch_b64val _ _ hv2]
    · intro b hb
      simp at hb
      omega
  | case3 c1 c2 c4 rest v1 v2 hv2 hv1 hcond =>
    simp [decodeCore, hv1, hv2, hcond] at h
  | case4 c1 c2 c3 rest v1 v2 hv2 hv1 hc3 v3 hv3 hcond =>
    obtain ⟨hrest, hm⟩ := hcond
    subst hrest
    have hl1 : v1 < 64 := b64val_lt _ _ hv1
    have hl2 : v2 < 64 := b64val_lt _ _ hv2
    have hl3 : v3 < 64 := b64val_lt _ _ hv3
    simp [decodeCore, hv1, hv2, hv3, hc3, hm] at h
    subst h
    refine ⟨?_, ?_⟩
    · have e1 : (v1 * 4 + v2 / 16) / 4 = v1 := by omega
      have e2 : (v1 * 4 + v2 / 16) % 4 * 16 + (v2 % 16 * 16 + v3 / 4) / 16 = v2 := by omega
      have e3 : (v2 % 16 * 16 + v3 / 4) % 16 * 4 = v3 := by omega
      simp [encodeCore, e1, e2, e3, b64ch_b64val _ _ hv1, b64ch_b64val _ _ hv2,
        b64ch_b64val _ _ hv3]
    · intro b hb
      simp at hb
      rcases hb with hb | hb <;> omega
  | case5 c1 c2 c3 rest v1 v2 hv2 hv1 hc3 v3 hv3 hcond =>
    simp [decodeCore, hv1, hv2, hv3, hc3, hcond] at h
  | case6 c1 c2 c3 c4 rest v1 v2 hv2 hv1 hc3 v3 hv3 hc4 v4 hv4 bs' hrec ih =>
    have hl1 : v1 < 64 := b64val_lt _ _ hv1
    have hl2 : v2 < 64 := b64val_lt _ _ hv2
    have hl3 : v3 < 64 := b64val_lt _ _ hv3
    have hl4 : v4 < 64 := b64val_lt _ _ hv4
    obtain ⟨ihe, ihb⟩ := ih bs' hrec
    simp [decodeCore, hv1, hv2, hv3, hv4, hc3, hc4, hrec] at h
    subst h
    refine ⟨?_, ?_⟩
    · have e1 : (v1 * 4 + v2 / 16) / 4 = v1 := by omega
      have e2 : (v1 * 4 + v2 / 16) % 4 * 16 + (v2 % 16 * 16 + v3 / 4) / 16 = v2 := by omega
      have e3 : (v2 % 16 * 16 + v3 / 4) % 16 * 4 + (v3 % 4 * 64 + v4) / 64 = v3 := by omega
      have e4 : (v3 % 4 * 64 + v4) % 64 = v4 := by omega
      simp [encodeCore, e1, e2, e3, e4, b64ch_b64val _ _ hv1, b64ch_b64val _ _ hv2,
        b64ch_b64val _ _ hv3, b64ch_b64val _ _ hv4, ihe]
    · intro b hb
      simp at hb
      rcases hb with hb | hb | hb | hb
      · omega
      · omega
      · omega
      · exact ihb b hb
  | case7 c1 c2 c3 c4 rest v1 v2 hv2 hv1 hc3 v3 hv3 hc4 v4 hv4 hrec ih =>
    simp [decodeCore, hv1, hv2, hv3, hv4, hc3, hc4, hrec] at h
  | case8 c1 c2 c3 c4 rest v1 v2 hv2 hv1 hc3 v3 hv3 hc4 hv4 =>
    simp [decodeCore, hv1, hv2, hv3, hv4, hc3, hc4] at h
  | case9 c1 c2 c3 c4 rest v1 v2 hv2 hv1 hc3 hv3 =>
    simp [decodeCore, hv1, hv2, hv3, hc3] at h
  | case10 c1 c2 c3 c4 rest hfail =>
    rcases hb1 : b64val c1 with _ | v1 <;> rcases hb2 : b64val c2 with _ | v2 <;>
      simp [decodeCore, hb1, hb2] at h
    exact absurd (hfail v1 v2 hb1 hb2) id
  | case11 t hne hnc =>
    rcases t with _ | ⟨a, _ | ⟨b, _ | ⟨c, _ | ⟨d, t'⟩⟩⟩⟩
    · exact absurd rfl hne
    · simp [decodeCore] at h
    · simp [decodeCore] at h
    · simp [decodeCore] at h
    · exact absurd rfl (hnc a b c d t')

end Base64

/-! ## Module codec (model of `SerdeCompiledModule` in `genesis.rs`) -/

/-- Encoding mode of the surrounding serializer
(`Serializer::is_human_readable` in the source). -/
inductive Mode where
  | binary
  | humanReadable
deriving DecidableEq

/-- Serialized representation of one compiled module: raw bytes in binary
mode, a base64 ASCII string in human-readable mode. -/
inductive ModuleRepr where
  | bin (bytes : List Nat)
  | text (s : String)
deriving DecidableEq

/-- Modelled from the spec: the module's own native binary serializer and
deserializer (`move_binary_format::CompiledModule::serialize` /
`CompiledModule::deserialize`), an external collaborator operating on an
opaque, pre-validated module value. -/
structure NativeModuleCodec (M : Type) where
  serialize : M → Except String (List Nat)
  deserialize : List Nat → Except String M

namespace SerdeCompiledModule

/-- Model of `SerdeCompiledModule::serialize_as`: serialize the module with
its native binary serializer (propagating its error); in human-readable mode
emit the base64 string of those bytes, otherwise emit the raw bytes. -/
def serialize_as {M : Type} (nc : NativeModuleCodec M) (mode : Mode) (m : M) :
    Except String ModuleRepr :=
  match nc.serialize m with
  | .error e => .error e
  | .ok serialized_module =>
    match mode with
    | .humanReadable => .ok (.text (Base64.encode_string serialized_module))
    | .binary => .ok (.bin serialized_module)

/-- Model of `SerdeCompiledModule::deserialize_as`: in human-readable mode
expect a string, base64-decode it, then run the native deserializer; in
binary mode expect raw bytes and run the native deserializer. -/
def deserialize_as {M : Type} (nc : NativeModuleCodec M) (mode : Mode) (r : ModuleRepr) :
    Except String M :=
  match mode with
  | .humanReadable =>
    match r with
    | .text s =>
      match Base64.decode_vec s with
      | .error e => .error e
      | .ok data => nc.deserialize data
    | .bin _ => .error "invalid type: expected a string"
  | .binary =>
    match r with
    | .bin data => nc.deserialize data
    | .text _ => .error "invalid type: expected a byte sequence"

end SerdeCompiledModule

/-- Modelled from the spec: a compiled module is an opaque, pre-validated,
indivisible unit of bytecode; the model retains its native binary layout. -/
structure CompiledModule where
  bytes : List Nat
deriving DecidableEq

/-- Modelled from the spec: the canonical native codec for the opaque
compiled-module model — serialization yields the stored binary layout. -/
def modelCodec : NativeModuleCodec CompiledModule where
  serialize := fun m => .ok m.bytes
  deserialize := fun data => .ok ⟨data⟩

/-- Modelled from the spec: an initial on-chain object, opaque and
externally defined, consumed as a whole unit. -/
structure Object where
  data : List Nat
deriving DecidableEq

/-- Modelled from the spec: the genesis transaction context, an opaque
value attributing genesis-created entities. -/
structure TxContext where
  data : List Nat
deriving DecidableEq

/-- Modelled from the spec: a validator public key, opaque. -/
structure PublicKeyBytes where
  data : List Nat
deriving DecidableEq

/-! ## Genesis bundle and its serialized form -/

/-- The `Genesis` bundle of `genesis.rs`: ordered module groups, ordered
initial objects, and the genesis transaction context. -/
structure Genesis where
  modules : List (List CompiledModule)
  objects : List Object
  genesis_ctx : TxContext
deriving DecidableEq

/-- Elementwise fallible traversal: serde's sequence encoding applies the
leaf codec to each element in order and propagates the first error. -/
def mapExcept {α β : Type} (f : α → Except String β) : List α → Except String (List β)
  | [] => .ok []
  | a :: t =>
    match f a with
    | .error e => .error e
    | .ok b =>
      match mapExcept f t with
      | .error e => .error e
      | .ok bs => .ok (b :: bs)

/-- Serialized form of a `Genesis` bundle: module groups hold per-module
representations; objects and context use their own native (externally
defined) encodings and are carried verbatim. -/
structure GenesisRepr where
  modules : List (List ModuleRepr)
  objects : List Object
  genesis_ctx : TxContext
deriving DecidableEq

/-- Field-by-field serialization of `Genesis` (serde derive, with
`Vec<Vec<SerdeCompiledModule>>` substituted on the modules field). -/
def Genesis.serializeBundle (nc : NativeModuleCodec CompiledModule) (mode : Mode)
    (g : Genesis) : Except String GenesisRepr :=
  match mapExcept (mapExcept (SerdeCompiledModule.serialize_as nc mode)) g.modules with
  | .error e => .error e
  | .ok ms => .ok ⟨ms, g.objects, g.genesis_ctx⟩

/-- Field-by-field deserialization of `Genesis`, inverse direction. -/
def Genesis.deserializeBundle (nc : NativeModuleCodec CompiledModule) (mode : Mode)
    (r : GenesisRepr) : Except String Genesis :=
  match mapExcept (mapExcept (SerdeCompiledModule.deserialize_as nc mode)) r.modules with
  | .error e => .error e
  | .ok ms => .ok ⟨ms, r.objects, r.genesis_ctx⟩

/-! ## Bundle builder (model of `Builder` in `genesis.rs`) -/

/-- The `Builder` accumulator of `genesis.rs`. Filesystem paths are opaque
strings. -/
structure Builder where
  sui_framework : Option String
  move_framework : Option String
  move_modules : List (List CompiledModule)
  objects : List Object
  genesis_ctx : Option TxContext
  validators : List (PublicKeyBytes × Nat)
deriving DecidableEq

/-- `Builder::new`, i.e. `Self::default()`: all fields empty. -/
def Builder.new : Builder :=
  ⟨none, none, [], [], none, []⟩

/-- `Builder::sui_framework` (named `set_sui_framework` here because the
field projection already uses the source name). -/
def Builder.set_sui_framework (self : Builder) (path : String) : Builder :=
  { self with sui_framework := some path }

/-- `Builder::move_framework` (named `set_move_framework` here because the
field projection already uses the source name). -/
def Builder.set_move_framework (self : Builder) (path : String) : Builder :=
  { self with move_framework := some path }

/-- `Builder::add_move_modules`: `self.move_modules = modules` — an
assignment, replacing whatever was accumulated before. -/
def Builder.add_move_modules (self : Builder) (modules : List (List CompiledModule)) : Builder :=
  { self with move_modules := modules }

/-- `Builder::add_object`: push one object. -/
def Builder.add_object (self : Builder) (object : Object) : Builder :=
  { self with objects := self.objects ++ [object] }

/-- `Builder::add_objects`: extend with many objects, preserving order. -/
def Builder.add_objects (self : Builder) (objects : List Object) : Builder :=
  { self with objects := self.objects ++ objects }

/-- `Builder::genesis_ctx` (named `set_genesis_ctx` here because the field
projection already uses the source name). -/
def Builder.set_genesis_ctx (self : Builder) (genesis_ctx : TxContext) : Builder :=
  { self with genesis_ctx := some genesis_ctx }

/-- `Builder::add_validator`: record a pending `(public_key, stake)` pair. -/
def Builder.add_validator (self : Builder) (public_key : PublicKeyBytes) (stake : Nat) :
    Builder :=
  { self with validators := self.validators ++ [(public_key, stake)] }

/-- Modelled from the spec: the external collaborators consulted by
`build` — the module loaders `sui_framework::get_move_stdlib_modules` and
`sui_framework::get_sui_framework_modules` (path in, ordered modules or a
load error out) and the default context provider
`sui_adapter::genesis::get_genesis_context`. -/
structure BuildEnv where
  get_move_stdlib_modules : String → Except String (List CompiledModule)
  get_sui_framework_modules : String → Except String (List CompiledModule)
  get_genesis_context : TxContext

/-- The error kinds named by the spec (section 7). The source's `build`
never returns them — it terminates fatally instead; they exist to state the
spec's claims about recoverable failure. -/
inductive BuildError where
  | SourceMissing
  | LoadFailure (msg : String)
  | EncodeError (msg : String)
  | DecodeError (msg : String)
deriving DecidableEq

/-- Result of `build`: a bundle, a recoverable error reported to the
caller, or a fatal process-terminating panic (`unwrap` of a missing value
in the source). -/
inductive BuildOutcome where
  | ok (g : Genesis)
  | err (e : BuildError)
  | panicked (msg : String)
deriving DecidableEq

/-- The Rust message for `Option::unwrap` on `None`. -/
def unwrapNoneMsg : String :=
  "called Option::unwrap on a None value"

/-- Model of `Builder::build`: unwrap the move-framework path and load the
standard-library group, unwrap the sui-framework path and load the
framework group, concatenate `[stdlib, framework] ++ move_modules`, carry
the accumulated objects, and use the explicitly set context or else the
default provider. `unwrap` of a missing path or of a loader failure is a
fatal panic. -/
def Builder.build (env : BuildEnv) (self : Builder) : BuildOutcome :=
  match self.move_framework with
  | none => .panicked unwrapNoneMsg
  | some move_framework_lib_path =>
    match env.get_move_stdlib_modules move_framework_lib_path with
    | .error e => .panicked e
    | .ok move_modules =>
      match self.sui_framework with
      | none => .panicked unwrapNoneMsg
      | some sui_framework_lib_path =>
        match env.get_sui_framework_modules sui_framework_lib_path with
        | .error e => .panicked e
        | .ok sui_modules =>
          .ok ⟨move_modules :: sui_modules :: self.move_modules,
            self.objects,
            self.genesis_ctx.getD env.get_genesis_context⟩

/-- One fluent builder call, used to quantify over arbitrary interleavings
of the accumulation methods. -/
inductive BOp where
  | set_sui_framework (path : String)
  | set_move_framework (path : String)
  | add_move_modules (modules : List (List CompiledModule))
  | add_object (object : Object)
  | add_objects (objects : List Object)
  | set_genesis_ctx (genesis_ctx : TxContext)
  | add_validator (public_key : PublicKeyBytes) (stake : Nat)
deriving DecidableEq

/-- Apply one builder call. -/
def applyOp (b : Builder) : BOp → Builder
  | .set_sui_framework p => b.set_sui_framework p
  | .set_move_framework p => b.set_move_framework p
  | .add_move_modules ms => b.add_move_modules ms
  | .add_object o => b.add_object o
  | .add_objects os => b.add_objects os
  | .set_genesis_ctx c => b.set_genesis_ctx c
  | .add_validator k s => b.add_validator k s

/-- Apply a sequence of builder calls left to right. -/
def applyOps (b : Builder) (ops : List BOp) : Builder :=
  ops.foldl applyOp b

/-- Whether a builder call is `add_move_modules`. -/
def BOp.isAddMoveModules : BOp → Bool
  | .add_move_modules _ => true
  | _ => false

/-- The objects supplied by a sequence of builder calls, in call order,
`add_objects` preserving its argument's internal order. -/
def suppliedObjects : List BOp → List Object
  | [] => []
  | .add_object o :: t => o :: suppliedObjects t
  | .add_objects os :: t => os ++ suppliedObjects t
  | _ :: t => suppliedObjects t

/-- A module value on which the native codec round-trips through a byte
sequence. This is the contract of the external binary (de)serializer
assumed by the spec's round-trip property. -/
def NativeModuleCodec.RoundTrips {M : Type} (nc : NativeModuleCodec M) (m : M) : Prop :=
  ∃ b, nc.serialize m = .ok b ∧ (∀ x ∈ b, x < 256) ∧ nc.deserialize b = .ok m

/-! ## Calibration report scraper (model of `cost_calib/runner.rs`).
Rust strings processed character-wise are modelled as `List Char`. -/

/-- A parsed measurement value. Modelled from the spec: `f32` parsing is an
external concern (Rust core); since `extract_calib` only moves values
around and never computes with them, a value is kept as its literal text. -/
structure CalF where
  lit : List Char
deriving DecidableEq

/-- The Rust literal `0.0` used as the baseline of an unpaired entry. -/
def calF0 : CalF :=
  ⟨['0', '.', '0']⟩

/-- Model of `str::parse::<f32>`: accepts nonempty numeric-shaped text. -/
def parseF32 (l : List Char) : Option CalF :=
  if l ≠ [] ∧ l.all (fun c => c.isDigit || c = '.' || c = '-' || c = '+' || c = 'e' || c = 'E')
  then some ⟨l⟩ else none

/-- `CalibTestResult` of `runner.rs`. -/
structure CalibTestResult where
  name : List Char
  baseline : CalF
  subject : CalF
deriving DecidableEq

/-- Accumulator form of single-character splitting. -/
def splitCharAux (sep : Char) : List Char → List Char → List (List Char)
  | [], cur => [cur.reverse]
  | c :: t, cur =>
    if c = sep then cur.reverse :: splitCharAux sep t [] else splitCharAux sep t (c :: cur)

/-- `str::split(char)`: split at every occurrence of a character. -/
def splitChar (sep : Char) (l : List Char) : List (List Char) :=
  splitCharAux sep l []

/-- Text before the first occurrence of (nonempty) `sep` and the remainder
after it, if `sep` occurs at all. -/
def seqSplitOnce (sep : List Char) : List Char → Option (List Char × List Char)
  | [] => none
  | c :: t =>
    if sep.isPrefixOf (c :: t) then some ([], (c :: t).drop sep.length)
    else (seqSplitOnce sep t).map (fun p => (c :: p.1, p.2))

/-- `s.split(sep).nth(1)`: the piece between the first and second
occurrence of `sep` (up to the end when `sep` occurs only once). -/
def splitNth1 (sep : List Char) (l : List Char) : Option (List Char) :=
  (seqSplitOnce sep l).map fun p =>
    match seqSplitOnce sep p.2 with
    | some q => q.1
    | none => p.2

/-- `str::trim`: drop whitespace from both ends. -/
def trimChars (l : List Char) : List Char :=
  ((l.dropWhile Char.isWhitespace).reverse.dropWhile Char.isWhitespace).reverse

/-- Parse one filtered report line: `tokens = line.split('│')`;
`tokens[1].trim()` split on `"test_calibrate_"`, second piece, is the name;
`tokens[2].trim()` parses as the value. A missing piece or failed parse is
an `unwrap` panic in the source, modelled as `none`. -/
def calibLineParse (x : List Char) : Option (List Char × CalF) :=
  let tokens := splitChar '│' x
  match tokens[1]?, tokens[2]? with
  | some t1, some t2 =>
    match splitNth1 ("test_calibrate_".toList) (trimChars t1) with
    | some name =>
      match parseF32 (trimChars t2) with
      | some v => some (name, v)
      | none => none
    | none => none
  | _, _ => none

/-- `HashMap::insert`: bind `k` to `v`, replacing any previous binding. -/
def mapInsert (mp : List (List Char × CalF)) (k : List Char) (v : CalF) :
    List (List Char × CalF) :=
  mp.filter (fun p => p.1 ≠ k) ++ [(k, v)]

/-- `HashMap::remove` by key. -/
def mapRemove (mp : List (List Char × CalF)) (k : List Char) : List (List Char × CalF) :=
  mp.filter (fun p => p.1 ≠ k)

/-- `HashMap` key lookup (`contains_key` / indexing). -/
def calibLookup : List (List Char × CalF) → List Char → Option CalF
  | [], _ => none
  | p :: t, k => if p.1 = k then some p.2 else calibLookup t k

/-- The measurement map `mp` built by the line loop of `extract_calib`. -/
def buildMap (l : List (List Char × CalF)) : List (List Char × CalF) :=
  l.foldl (fun mp p => mapInsert mp p.1 p.2) []

/-- Elementwise traversal over `Option`, `none` on the first failure. -/
def mapOption {α β : Type} (f : α → Option β) : List α → Option (List β)
  | [] => some []
  | a :: t =>
    match f a with
    | none => none
    | some b => (mapOption f t).map (fun bs => b :: bs)

/-- The measurement map parsed from a report: keep the lines starting with
`"│ 0x2::"`, parse each, insert into the map in order. -/
def calibMeasurements (s : List Char) : Option (List (List Char × CalF)) :=
  (mapOption calibLineParse
    ((splitChar '\n' s).filter (fun x => ("│ 0x2::".toList).isPrefixOf x))).map buildMap

/-- The `"__baseline"` suffix. -/
def baselineSuffix : List Char :=
  "__baseline".toList

/-- The body of the pairing loop of `extract_calib`: when
`name ++ "__baseline"` is also in the measurement map, push a paired result
and remove both keys from the clone; otherwise leave the accumulator. -/
def calibStep (mp : List (List Char × CalF))
    (acc : List CalibTestResult × List (List Char × CalF)) (p : List Char × CalF) :
    List CalibTestResult × List (List Char × CalF) :=
  match calibLookup mp (p.1 ++ baselineSuffix) with
  | some bv =>
    (acc.1 ++ [⟨p.1, bv, p.2⟩], mapRemove (mapRemove acc.2 p.1) (p.1 ++ baselineSuffix))
  | none => acc

/-- The pairing loop of `extract_calib`: iterate the measurements with the
clone initialized to the full map. -/
def calibLoop1 (mp : List (List Char × CalF)) :
    List CalibTestResult × List (List Char × CalF) :=
  mp.foldl (calibStep mp) ([], mp)

/-- The paired entries the loop emits over an iteration list (proof
device equal to the loop's first component). -/
def pairedResults (mp l : List (List Char × CalF)) : List CalibTestResult :=
  l.filterMap (fun p =>
    (calibLookup mp (p.1 ++ baselineSuffix)).map (fun bv => (⟨p.1, bv, p.2⟩ : CalibTestResult)))

/-- `extract_calib`'s result: the paired entries, then the left-over
measurements with baseline `0.0`. -/
def calibPairs (mp : List (List Char × CalF)) : List CalibTestResult :=
  (calibLoop1 mp).1 ++ (calibLoop1 mp).2.map (fun p => ⟨p.1, calF0, p.2⟩)

/-- Model of `extract_calib` (`runner.rs`). -/
def extract_calib (s : List Char) : Option (List CalibTestResult) :=
  (calibMeasurements s).map calibPairs

/-- Keys removed from the clone by the pairing loop over a given iteration
list (proof device; the lookups consult the full map `mp`). -/
def calibRemoved (mp : List (List Char × CalF)) : List (List Char × CalF) → List (List Char)
  | [] => []
  | p :: t =>
    (if (calibLookup mp (p.1 ++ baselineSuffix)).isSome
     then [p.1, p.1 ++ baselineSuffix] else []) ++ calibRemoved mp t

/-! ## Builder lemmas -/

theorem applyOp_move_modules (b : Builder) (op : BOp) (h : op.isAddMoveModules = false) :
    (applyOp b op).move_modules = b.move_modules := by
  cases op <;> simp_all [applyOp, BOp.isAddMoveModules, Builder.set_sui_framework,
    Builder.set_move_framework, Builder.add_object, Builder.add_objects,
    Builder.set_genesis_ctx, Builder.add_validator]

theorem applyOps_move_modules (b : Builder) (ops : List BOp)
    (h : ∀ op ∈ ops, op.isAddMoveModules = false) :
    (applyOps b ops).move_modules = b.move_modules := by
  induction ops generalizing b with
  | nil => rfl
  | cons op t ih =>
    have h1 : op.isAddMoveModules = false := h op (by simp)
    have h2 : ∀ o ∈ t, o.isAddMoveModules = false := fun o ho => h o (by simp [ho])
    calc (applyOps b (op :: t)).move_modules
        = (applyOps (applyOp b op) t).move_modules := by simp [applyOps]
      _ = (applyOp b op).move_modules := ih _ h2
      _ = b.move_modules := applyOp_move_modules _ _ h1

theorem applyOps_append (b : Builder) (l1 l2 : List BOp) :
    applyOps b (l1 ++ l2) = applyOps (applyOps b l1) l2 := by
  simp [applyOps, List.foldl_append]

theorem applyOps_objects (b : Builder) (ops : List BOp) :
    (applyOps b ops).objects = b.objects ++ suppliedObjects ops := by
  induction ops generalizing b with
  | nil => simp [applyOps, suppliedObjects]
  | cons op t ih =>
    have step : applyOps b (op :: t) = applyOps (applyOp b op) t := by simp [applyOps]
    rw [step, ih]
    cases op <;> simp [applyOp, suppliedObjects, Builder.set_sui_framework,
      Builder.set_move_framework, Builder.add_move_modules, Builder.add_object,
      Builder.add_objects, Builder.set_genesis_ctx, Builder.add_validator]

theorem build_ok_objects (env : BuildEnv) (b : Builder) (g : Genesis)
    (h : Builder.build env b = .ok g) : g.objects = b.objects := by
  cases hm : b.move_framework with
  | none => simp [Builder.build, hm] at h
  | some p =>
    cases hl : env.get_move_stdlib_modules p with
    | error e => simp [Builder.build, hm, hl] at h
    | ok ms =>
      cases hs : b.sui_framework with
      | none => simp [Builder.build, hm, hl, hs] at h
      | some q =>
        cases hl2 : env.get_sui_framework_modules q with
        | error e => simp [Builder.build, hm, hl, hs, hl2] at h
        | ok ss =>
          simp only [Builder.build, hm, hl, hs, hl2, BuildOutcome.ok.injEq] at h
          rw [← h]

theorem build_add_validator (env : BuildEnv) (b : Builder) (k : PublicKeyBytes) (s : Nat) :
    Builder.build env (b.add_validator k s) = Builder.build env b :=
  rfl

/-! ## Claims about the builder -/

/-- C3: for a builder reached by any call sequence that supplies the caller
groups `gs` once, interleaved arbitrarily with other accumulator calls, if
both framework sources are set and both loaders succeed then `build`
produces module groups `[stdlib group, framework group] ++ gs`, the caller
groups in the order supplied. -/
theorem C3_build_group_order (env : BuildEnv) (ops1 ops2 : List BOp)
    (gs : List (List CompiledModule))
    (_h1 : ∀ op ∈ ops1, op.isAddMoveModules = false)
    (h2 : ∀ op ∈ ops2, op.isAddMoveModules = false)
    (p1 p2 : String) (stdlib framework : List CompiledModule)
    (hp1 : (applyOps Builder.new (ops1 ++ BOp.add_move_modules gs :: ops2)).move_framework
      = some p1)
    (hl1 : env.get_move_stdlib_modules p1 = .ok stdlib)
    (hp2 : (applyOps Builder.new (ops1 ++ BOp.add_move_modules gs :: ops2)).sui_framework
      = some p2)
    (hl2 : env.get_sui_framework_modules p2 = .ok framework) :
    ∃ g, Builder.build env (applyOps Builder.new (ops1 ++ BOp.add_move_modules gs :: ops2))
        = .ok g ∧ g.modules = stdlib :: framework :: gs := by
  have hsplit : ops1 ++ BOp.add_move_modules gs :: ops2
      = (ops1 ++ [BOp.add_move_modules gs]) ++ ops2 := by simp
  have hmm : (applyOps Builder.new (ops1 ++ BOp.add_move_modules gs :: ops2)).move_modules
      = gs := by
    rw [hsplit, applyOps_append, applyOps_move_modules _ _ h2, applyOps_append]
    rfl
  refine ⟨⟨stdlib :: framework :: gs,
      (applyOps Builder.new (ops1 ++ BOp.add_move_modules gs :: ops2)).objects,
      ((applyOps Builder.new (ops1 ++ BOp.add_move_modules gs :: ops2)).genesis_ctx).getD
        env.get_genesis_context⟩, ?_, rfl⟩
  simp only [Builder.build, hp1, hl1, hp2, hl2, hmm]

/-- C3 witness: a concrete interleaving with an object added before the
caller groups and the context set after them. -/
theorem C3_order_witness :
    ∃ g, Builder.build
        ⟨fun _ => .ok [⟨[1]⟩], fun _ => .ok [⟨[2]⟩], ⟨[]⟩⟩
        (applyOps Builder.new
          ([BOp.set_move_framework "m", BOp.add_object ⟨[9]⟩]
            ++ BOp.add_move_modules [[⟨[7]⟩]]
              :: [BOp.set_sui_framework "s", BOp.set_genesis_ctx ⟨[5]⟩]))
        = .ok g ∧ g.modules = [⟨[1]⟩] :: [⟨[2]⟩] :: [[⟨[7]⟩]] :=
  C3_build_group_order _ _ _ _ (by decide) (by decide) "m" "s" _ _ rfl rfl rfl rfl

/-- C4 is false on the code: `add_move_modules` assigns
(`self.move_modules = modules`); a second call replaces the first call's
groups instead of appending. -/
theorem C4_counterexample :
    ((Builder.new.add_move_modules [[⟨[1]⟩]]).add_move_modules [[⟨[2]⟩]]).move_modules
        = [[⟨[2]⟩]]
      ∧ ((Builder.new.add_move_modules [[⟨[1]⟩]]).add_move_modules [[⟨[2]⟩]]).move_modules
        ≠ [[⟨[1]⟩]] ++ [[⟨[2]⟩]] :=
  ⟨rfl, by decide⟩

/-- C4 (amended): after `add_move_modules(gs1)` then `add_move_modules(gs2)`
the builder's caller-supplied groups are `gs2` alone — the last call wins,
nothing is accumulated. -/
theorem C4_last_call_wins (b : Builder) (gs1 gs2 : List (List CompiledModule)) :
    ((b.add_move_modules gs1).add_move_modules gs2).move_modules = gs2 :=
  rfl

/-- C5 is false as stated: `build` on a fresh builder terminates with a
fatal panic (`unwrap` of the unset path); it does not report the
recoverable `SourceMissing` error to the caller. -/
theorem C5_counterexample :
    Builder.build ⟨fun _ => .ok [], fun _ => .ok [], ⟨[]⟩⟩ Builder.new
        = .panicked unwrapNoneMsg
      ∧ Builder.build ⟨fun _ => .ok [], fun _ => .ok [], ⟨[]⟩⟩ Builder.new
        ≠ .err BuildError.SourceMissing :=
  ⟨rfl, by decide⟩

/-- C5 (amended): with either source path never set, `build` fails fatally
with a panic before producing any bundle — in particular it never returns
an empty bundle — rather than returning a recoverable `SourceMissing`
error. -/
theorem C5_missing_source_panics (env : BuildEnv) (b : Builder)
    (h : b.move_framework = none ∨ b.sui_framework = none) :
    ∃ msg, Builder.build env b = .panicked msg := by
  rcases h with h | h
  · exact ⟨unwrapNoneMsg, by simp [Builder.build, h]⟩
  · cases hm : b.move_framework with
    | none => exact ⟨unwrapNoneMsg, by simp [Builder.build, hm]⟩
    | some p =>
      cases hl : env.get_move_stdlib_modules p with
      | error e => exact ⟨e, by simp [Builder.build, hm, hl]⟩
      | ok ms => exact ⟨unwrapNoneMsg, by simp [Builder.build, hm, hl, h]⟩

/-- C5 witness: the fresh builder has no sources and `build` panics. -/
theorem C5_missing_source_witness :
    (Builder.new.move_framework = none ∨ Builder.new.sui_framework = none)
      ∧ ∃ msg, Builder.build ⟨fun _ => .ok [], fun _ => .ok [], ⟨[]⟩⟩ Builder.new
          = .panicked msg :=
  ⟨Or.inl rfl, C5_missing_source_panics _ _ (Or.inl rfl)⟩

/-- C8: any sequence of `add_validator` calls leaves the bundle produced by
`build` — all three fields of it — unchanged. -/
theorem C8_validators_inert (env : BuildEnv) (b : Builder)
    (calls : List (PublicKeyBytes × Nat)) :
    Builder.build env (applyOps b (calls.map (fun c => BOp.add_validator c.1 c.2)))
      = Builder.build env b := by
  induction calls generalizing b with
  | nil => rfl
  | cons c t ih =>
    have step : applyOps b ((c :: t).map (fun c => BOp.add_validator c.1 c.2))
        = applyOps (b.add_validator c.1 c.2) (t.map (fun c => BOp.add_validator c.1 c.2)) := by
      simp [applyOps, applyOp]
    rw [step, ih, build_add_validator]

/-- C9: whenever `build` succeeds on a builder reached from fresh by any
call sequence, the bundle's objects are exactly the objects supplied by
`add_object`/`add_objects`, concatenated in call order, unmodified. -/
theorem C9_objects_exact (env : BuildEnv) (ops : List BOp) (g : Genesis)
    (h : Builder.build env (applyOps Builder.new ops) = .ok g) :
    g.objects = suppliedObjects ops := by
  rw [build_ok_objects env _ g h, applyOps_objects]
  rfl

/-- C9 witness at a concrete call sequence. -/
theorem C9_objects_witness :
    Genesis.objects ⟨[[], []], [⟨[1]⟩, ⟨[2]⟩, ⟨[3]⟩], ⟨[]⟩⟩
      = suppliedObjects [BOp.set_move_framework "m", BOp.set_sui_framework "s",
          BOp.add_object ⟨[1]⟩, BOp.add_objects [⟨[2]⟩, ⟨[3]⟩]] :=
  C9_objects_exact ⟨fun _ => .ok [], fun _ => .ok [], ⟨[]⟩⟩ _ _ rfl

/-! ## Claims about the module codec and bundle serialization -/

theorem serde_roundtrip_mode {M : Type} (nc : NativeModuleCodec M) (mode : Mode) (m : M)
    (b : List Nat) (hser : nc.serialize m = .ok b) (hb : ∀ x ∈ b, x < 256)
    (hdeser : nc.deserialize b = .ok m) :
    ∃ r, SerdeCompiledModule.serialize_as nc mode m = .ok r ∧
      SerdeCompiledModule.deserialize_as nc mode r = .ok m := by
  cases mode with
  | binary =>
    refine ⟨.bin b, ?_, ?_⟩
    · simp [SerdeCompiledModule.serialize_as, hser]
    · simp [SerdeCompiledModule.deserialize_as, hdeser]
  | humanReadable =>
    refine ⟨.text (Base64.encode_string b), ?_, ?_⟩
    · simp [SerdeCompiledModule.serialize_as, hser]
    · simp [SerdeCompiledModule.deserialize_as, Base64.decode_vec, Base64.encode_string,
        Base64.decodeCore_encodeCore b hb, hdeser]

/-- C1: for every module on which the native binary codec round-trips, the
module codec round-trips in both modes: decoding the encoding of the module
with the same mode yields the module back. -/
theorem C1_module_codec_roundtrip {M : Type} (nc : NativeModuleCodec M) (m : M)
    (h : nc.RoundTrips m) (mode : Mode) :
    (SerdeCompiledModule.serialize_as nc mode m).bind
      (SerdeCompiledModule.deserialize_as nc mode) = .ok m := by
  obtain ⟨b, hser, hb, hdeser⟩ := h
  obtain ⟨r, hr1, hr2⟩ := serde_roundtrip_mode nc mode m b hser hb hdeser
  rw [hr1]
  exact hr2

/-- C1 witness at a concrete module, human-readable mode. -/
theorem C1_roundtrip_witness :
    modelCodec.RoundTrips ⟨[0, 1, 255]⟩
      ∧ (SerdeCompiledModule.serialize_as modelCodec .humanReadable ⟨[0, 1, 255]⟩).bind
          (SerdeCompiledModule.deserialize_as modelCodec .humanReadable) = .ok ⟨[0, 1, 255]⟩ :=
  ⟨⟨[0, 1, 255], rfl, by decide, rfl⟩,
    C1_module_codec_roundtrip modelCodec ⟨[0, 1, 255]⟩
      ⟨[0, 1, 255], rfl, by decide, rfl⟩ .humanReadable⟩

theorem mapExcept_roundtrip {α β : Type} (f : α → Except String β) (g : β → Except String α)
    (l : List α) (h : ∀ a ∈ l, ∃ b, f a = .ok b ∧ g b = .ok a) :
    ∃ bl, mapExcept f l = .ok bl ∧ mapExcept g bl = .ok l := by
  induction l with
  | nil => exact ⟨[], rfl, rfl⟩
  | cons a t ih =>
    obtain ⟨b, hfa, hgb⟩ := h a (by simp)
    obtain ⟨bl, hft, hgt⟩ := ih (fun x hx => h x (by simp [hx]))
    refine ⟨b :: bl, ?_, ?_⟩
    · simp [mapExcept, hfa, hft]
    · simp [mapExcept, hgb, hgt]

/-- C2: serializing a Genesis bundle then deserializing in the same mode
returns an equal bundle (for bundles whose modules the native codec
round-trips), and two bundles are equal exactly when their `modules`,
`objects` and `genesis_ctx` fields are structurally equal. -/
theorem C2_bundle_roundtrip (nc : NativeModuleCodec CompiledModule) (mode : Mode) (g : Genesis)
    (h : ∀ grp ∈ g.modules, ∀ m ∈ grp, nc.RoundTrips m) :
    (Genesis.serializeBundle nc mode g).bind (Genesis.deserializeBundle nc mode) = .ok g
      ∧ ∀ g1 g2 : Genesis, g1 = g2 ↔
          g1.modules = g2.modules ∧ g1.objects = g2.objects
            ∧ g1.genesis_ctx = g2.genesis_ctx := by
  constructor
  · have hmods : ∀ grp ∈ g.modules, ∃ rg,
        mapExcept (SerdeCompiledModule.serialize_as nc mode) grp = .ok rg ∧
          mapExcept (SerdeCompiledModule.deserialize_as nc mode) rg = .ok grp := by
      intro grp hgrp
      apply mapExcept_roundtrip
      intro m hm
      obtain ⟨b, hser, hb, hdeser⟩ := h grp hgrp m hm
      exact serde_roundtrip_mode nc mode m b hser hb hdeser
    obtain ⟨ms, hm1, hm2⟩ := mapExcept_roundtrip _ _ g.modules hmods
    simp [Genesis.serializeBundle, hm1, Except.bind, Genesis.deserializeBundle, hm2]
  · intro g1 g2
    constructor
    · rintro rfl
      exact ⟨rfl, rfl, rfl⟩
    · rintro ⟨e1, e2, e3⟩
      cases g1
      cases g2
      simp_all

/-- C2 witness at a concrete bundle, human-readable mode. -/
theorem C2_bundle_witness :
    (∀ grp ∈ (⟨[[⟨[0, 255]⟩]], [⟨[1]⟩], ⟨[2]⟩⟩ : Genesis).modules, ∀ m ∈ grp,
        modelCodec.RoundTrips m)
      ∧ (Genesis.serializeBundle modelCodec .humanReadable ⟨[[⟨[0, 255]⟩]], [⟨[1]⟩], ⟨[2]⟩⟩).bind
          (Genesis.deserializeBundle modelCodec .humanReadable)
          = .ok ⟨[[⟨[0, 255]⟩]], [⟨[1]⟩], ⟨[2]⟩⟩ := by
  have hrt : ∀ grp ∈ (⟨[[⟨[0, 255]⟩]], [⟨[1]⟩], ⟨[2]⟩⟩ : Genesis).modules, ∀ m ∈ grp,
      modelCodec.RoundTrips m := by
    intro grp hgrp m hm
    simp only [List.mem_singleton] at hgrp
    subst hgrp
    simp only [List.mem_singleton] at hm
    subst hm
    exact ⟨[0, 255], rfl, by decide, rfl⟩
  exact ⟨hrt, (C2_bundle_roundtrip modelCodec .humanReadable _ hrt).1⟩

/-- C6: when the native serializer succeeds with bytes `b`, binary-mode
encoding emits exactly the raw byte sequence `b`, and human-readable-mode
encoding emits exactly the standard-alphabet base64 ASCII string of `b`. -/
theorem C6_encode_forms {M : Type} (nc : NativeModuleCodec M) (m : M) (b : List Nat)
    (hser : nc.serialize m = .ok b) :
    SerdeCompiledModule.serialize_as nc .binary m = .ok (.bin b)
      ∧ SerdeCompiledModule.serialize_as nc .humanReadable m
        = .ok (.text (Base64.encode_string b)) := by
  constructor <;> simp [SerdeCompiledModule.serialize_as, hser]

/-- C6 witness at a concrete module. -/
theorem C6_encode_witness :
    modelCodec.serialize ⟨[77]⟩ = .ok [77]
      ∧ SerdeCompiledModule.serialize_as modelCodec .binary ⟨[77]⟩ = .ok (.bin [77])
      ∧ SerdeCompiledModule.serialize_as modelCodec .humanReadable ⟨[77]⟩
        = .ok (.text (Base64.encode_string [77])) :=
  ⟨rfl, C6_encode_forms modelCodec ⟨[77]⟩ [77] rfl⟩

/-- C7: a string that is not valid base64 — not the canonical base64
encoding of any byte sequence — fails to decode as a human-readable module
representation with the base64 decode error, and never succeeds with a
module, for every native codec. -/
theorem C7_malformed_base64 {M : Type} (nc : NativeModuleCodec M) (s : String)
    (h : ∀ bs : List Nat, (∀ x ∈ bs, x < 256) → Base64.encode_string bs ≠ s) :
    SerdeCompiledModule.deserialize_as nc .humanReadable (.text s) = .error "invalid Base64"
      ∧ ∀ m : M, SerdeCompiledModule.deserialize_as nc .humanReadable (.text s) ≠ .ok m := by
  have hdec : Base64.decodeCore s.data = none := by
    cases hd : Base64.decodeCore s.data with
    | none => rfl
    | some bs =>
      obtain ⟨henc, hbound⟩ := Base64.encodeCore_decodeCore s.data bs hd
      have : Base64.encode_string bs = s := by
        show String.mk (Base64.encodeCore bs) = s
        rw [henc]
      exact absurd this (h bs hbound)
  have herr : SerdeCompiledModule.deserialize_as nc .humanReadable (.text s)
      = .error "invalid Base64" := by
    simp [SerdeCompiledModule.deserialize_as, Base64.decode_vec, hdec]
  exact ⟨herr, fun m hm => by rw [herr] at hm; cases hm⟩

/-- C7 witness: `"!"` is not valid base64 and is rejected. -/
theorem C7_malformed_witness :
    (∀ bs : List Nat, (∀ x ∈ bs, x < 256) → Base64.encode_string bs ≠ "!")
      ∧ SerdeCompiledModule.deserialize_as modelCodec .humanReadable (.text "!")
        = .error "invalid Base64" := by
  have hinv : ∀ bs : List Nat, (∀ x ∈ bs, x < 256) → Base64.encode_string bs ≠ "!" := by
    intro bs hb heq
    have hrt := Base64.decodeCore_encodeCore bs hb
    have hdata : Base64.encodeCore bs = ['!'] := congrArg String.data heq
    rw [hdata] at hrt
    simp [Base64.decodeCore] at hrt
  exact ⟨hinv, (C7_malformed_base64 modelCodec "!" hinv).1⟩

/-! ## Lemmas about the pairing loop of `extract_calib` -/

theorem loop1_fold_fst (mp : List (List Char × CalF)) (l : List (List Char × CalF))
    (acc : List CalibTestResult) (c : List (List Char × CalF)) :
    (l.foldl (calibStep mp) (acc, c)).1 = acc ++ pairedResults mp l := by
  induction l generalizing acc c with
  | nil => simp [pairedResults]
  | cons p t ih =>
    cases hl : calibLookup mp (p.1 ++ baselineSuffix) with
    | none => simp [List.foldl_cons, calibStep, hl, pairedResults, List.filterMap_cons, ih]
    | some bv => simp [List.foldl_cons, calibStep, hl, pairedResults, List.filterMap_cons, ih]

theorem loop1_fold_snd (mp : List (List Char × CalF)) (l : List (List Char × CalF))
    (acc : List CalibTestResult) (c : List (List Char × CalF)) :
    (l.foldl (calibStep mp) (acc, c)).2
      = c.filter (fun q => decide (q.1 ∉ calibRemoved mp l)) := by
  induction l generalizing acc c with
  | nil => simp [calibRemoved]
  | cons p t ih =>
    cases hl : calibLookup mp (p.1 ++ baselineSuffix) with
    | none =>
      have hs : (calibLookup mp (p.1 ++ baselineSuffix)).isSome = false := by simp [hl]
      simp only [List.foldl_cons, calibStep, hl, ih, calibRemoved, hs, if_neg Bool.false_ne_true]
      simp
    | some bv =>
      have hs : (calibLookup mp (p.1 ++ baselineSuffix)).isSome = true := by simp [hl]
      simp only [List.foldl_cons, calibStep, hl, ih, calibRemoved, hs, if_pos rfl]
      simp only [mapRemove, List.filter_filter]
      apply List.filter_congr
      intro q hq
      by_cases h1 : q.1 = p.1 <;> by_cases h2 : q.1 = p.1 ++ baselineSuffix <;>
        by_cases h3 : q.1 ∈ calibRemoved mp t <;> simp [h1, h2, h3]

theorem calibLoop1_fst (mp : List (List Char × CalF)) :
    (calibLoop1 mp).1 = pairedResults mp mp := by
  rw [calibLoop1, loop1_fold_fst]
  rfl

theorem calibLoop1_snd (mp : List (List Char × CalF)) :
    (calibLoop1 mp).2 = mp.filter (fun q => decide (q.1 ∉ calibRemoved mp mp)) := by
  rw [calibLoop1, loop1_fold_snd]

/-! ## Lemmas about the measurement map -/

theorem mapInsert_keys_nodup (mp : List (List Char × CalF)) (k : List Char) (v : CalF)
    (h : (mp.map Prod.fst).Nodup) : ((mapInsert mp k v).map Prod.fst).Nodup := by
  rw [mapInsert, List.map_append]
  refine List.Nodup.append ?_ (by simp) ?_
  · exact h.sublist ((List.filter_sublist mp).map Prod.fst)
  · intro x hx hk
    simp only [List.map_cons, List.map_nil, List.mem_singleton] at hk
    subst hk
    simp only [List.mem_map, List.mem_filter] at hx
    obtain ⟨p, ⟨hp, hne⟩, hpx⟩ := hx
    rw [hpx] at hne
    simp at hne

theorem buildMap_keys_nodup (l : List (List Char × CalF)) :
    ((buildMap l).map Prod.fst).Nodup := by
  suffices h : ∀ mp : List (List Char × CalF), (mp.map Prod.fst).Nodup →
      ((l.foldl (fun mp p => mapInsert mp p.1 p.2) mp).map Prod.fst).Nodup from
    h [] (by simp)
  induction l with
  | nil =>
    intro mp h
    simpa using h
  | cons p t ih =>
    intro mp h
    rw [List.foldl_cons]
    exact ih _ (mapInsert_keys_nodup _ _ _ h)

theorem calibLookup_mem (mp : List (List Char × CalF)) (k : List Char) (v : CalF)
    (h : calibLookup mp k = some v) : (k, v) ∈ mp := by
  induction mp with
  | nil => cases h
  | cons p t ih =>
    by_cases he : p.1 = k
    · rw [calibLookup, if_pos he] at h
      have hv := Option.some.inj h
      have hp : p = (k, v) := by
        obtain ⟨p1, p2⟩ := p
        simp only at he hv
        rw [he, hv]
      rw [hp]
      exact List.mem_cons_self _ _
    · rw [calibLookup, if_neg he] at h
      exact List.mem_cons_of_mem _ (ih h)

theorem calibLookup_none_iff (mp : List (List Char × CalF)) (k : List Char) :
    calibLookup mp k = none ↔ k ∉ mp.map Prod.fst := by
  induction mp with
  | nil => simp [calibLookup]
  | cons p t ih =>
    rw [List.map_cons]
    by_cases he : p.1 = k
    · constructor
      · intro h
        rw [calibLookup, if_pos he] at h
        cases h
      · intro h
        exact absurd (by rw [← he]; exact List.mem_cons_self _ _) h
    · rw [calibLookup, if_neg he, ih]
      constructor
      · intro h hk
        rcases List.mem_cons.mp hk with h1 | h1
        · exact he h1.symm
        · exact h h1
      · intro h hk
        exact h (List.mem_cons_of_mem _ hk)

theorem filter_key_of_not_mem (l : List (List Char × CalF)) (n : List Char)
    (h : n ∉ l.map Prod.fst) : l.filter (fun p => decide (p.1 = n)) = [] := by
  rw [List.filter_eq_nil_iff]
  intro p hp
  simp only [decide_eq_true_eq]
  intro he
  exact h (List.mem_map.mpr ⟨p, hp, he⟩)

theorem filter_key_eq (mp : List (List Char × CalF)) (n : List Char) (v : CalF)
    (hnd : (mp.map Prod.fst).Nodup) (h : calibLookup mp n = some v) :
    mp.filter (fun p => decide (p.1 = n)) = [(n, v)] := by
  induction mp with
  | nil => cases h
  | cons p t ih =>
    rw [List.map_cons, List.nodup_cons] at hnd
    by_cases he : p.1 = n
    · rw [calibLookup, if_pos he] at h
      have hv := Option.some.inj h
      have hp : p = (n, v) := by
        obtain ⟨p1, p2⟩ := p
        simp only at he hv
        rw [he, hv]
      rw [List.filter_cons, if_pos (by simp [he])]
      rw [hp]
      have ht : t.filter (fun p => decide (p.1 = n)) = [] := by
        apply filter_key_of_not_mem
        rw [← he]
        exact hnd.1
      rw [ht]
    · rw [calibLookup, if_neg he] at h
      rw [List.filter_cons, if_neg (by simp [he])]
      exact ih hnd.2 h

/-! ## Lemmas about the removed-key set -/

theorem mem_calibRemoved_subject (mp : List (List Char × CalF))
    (l : List (List Char × CalF)) (n : List Char) (v : CalF)
    (h : (n, v) ∈ l) (hb : (calibLookup mp (n ++ baselineSuffix)).isSome) :
    n ∈ calibRemoved mp l := by
  induction l with
  | nil => cases h
  | cons p t ih =>
    rcases List.mem_cons.mp h with heq | ht
    · rw [calibRemoved, ← heq]
      simp [hb]
    · rw [calibRemoved]
      exact List.mem_append_right _ (ih ht)

theorem mem_calibRemoved_baseline (mp : List (List Char × CalF))
    (l : List (List Char × CalF)) (n : List Char) (v : CalF)
    (h : (n, v) ∈ l) (hb : (calibLookup mp (n ++ baselineSuffix)).isSome) :
    n ++ baselineSuffix ∈ calibRemoved mp l := by
  induction l with
  | nil => cases h
  | cons p t ih =>
    rcases List.mem_cons.mp h with heq | ht
    · rw [calibRemoved, ← heq]
      simp [hb]
    · rw [calibRemoved]
      exact List.mem_append_right _ (ih ht)

theorem mem_calibRemoved_inv (mp : List (List Char × CalF))
    (l : List (List Char × CalF)) (k : List Char) (h : k ∈ calibRemoved mp l) :
    ∃ p, p ∈ l ∧ (calibLookup mp (p.1 ++ baselineSuffix)).isSome
      ∧ (k = p.1 ∨ k = p.1 ++ baselineSuffix) := by
  induction l with
  | nil => cases h
  | cons p t ih =>
    rw [calibRemoved] at h
    rcases List.mem_append.mp h with hh | ht
    · by_cases hs : (calibLookup mp (p.1 ++ baselineSuffix)).isSome
      · rw [if_pos hs] at hh
        rcases List.mem_cons.mp hh with h1 | h1
        · exact ⟨p, List.mem_cons_self _ _, hs, Or.inl h1⟩
        · simp only [List.mem_singleton] at h1
          exact ⟨p, List.mem_cons_self _ _, hs, Or.inr h1⟩
      · rw [if_neg hs] at hh
        cases hh
    · obtain ⟨q, hq, hqs, hqk⟩ := ih ht
      exact ⟨q, List.mem_cons_of_mem _ hq, hqs, hqk⟩

/-! ## Filtering the scraper output by name -/

theorem pairedResults_filter_some (mp l : List (List Char × CalF)) (n : List Char) (bv : CalF)
    (hb : calibLookup mp (n ++ baselineSuffix) = some bv) :
    (pairedResults mp l).filter (fun e => decide (e.name = n))
      = (l.filter (fun p => decide (p.1 = n))).map
          (fun p => (⟨n, bv, p.2⟩ : CalibTestResult)) := by
  simp only [pairedResults]
  induction l with
  | nil => rfl
  | cons p t ih =>
    rw [List.filterMap_cons]
    by_cases he : p.1 = n
    · rw [he, hb]
      simp [he, ih]
    · cases hl : calibLookup mp (p.1 ++ baselineSuffix) with
      | none => simp [he, ih]
      | some bv' => simp [he, ih]

theorem pairedResults_filter_none (mp l : List (List Char × CalF)) (n : List Char)
    (hb : calibLookup mp (n ++ baselineSuffix) = none) :
    (pairedResults mp l).filter (fun e => decide (e.name = n)) = [] := by
  simp only [pairedResults]
  induction l with
  | nil => rfl
  | cons p t ih =>
    rw [List.filterMap_cons]
    by_cases he : p.1 = n
    · rw [he, hb]
      exact ih
    · cases hl : calibLookup mp (p.1 ++ baselineSuffix) with
      | none => exact ih
      | some bv' => simp [he, ih]

theorem map_entry_filter (l : List (List Char × CalF)) (n : List Char) :
    (l.map (fun p => (⟨p.1, calF0, p.2⟩ : CalibTestResult))).filter
        (fun e => decide (e.name = n))
      = (l.filter (fun p => decide (p.1 = n))).map
          (fun p => (⟨p.1, calF0, p.2⟩ : CalibTestResult)) := by
  induction l with
  | nil => rfl
  | cons p t ih =>
    by_cases he : p.1 = n <;> simp [he, ih]

/-! ## Claim about `extract_calib` -/

/-- C10 (amended): for measurements parsed by `extract_calib`, every name
lacking the `__baseline` suffix appears in the output exactly once; when
`name ++ "__baseline"` is also a measurement the unique entry pairs the
name's value as subject with the baseline entry's value as baseline, and
the baseline-suffixed name produces no separate entry provided its own
`__baseline` counterpart is absent (when `name ++ "__baseline__baseline"`
is also present, the code emits a separate entry for the suffixed name);
otherwise the unique entry carries baseline `0.0`. -/
theorem C10_extract_calib_pairing (s : List Char) (ret : List CalibTestResult)
    (mp : List (List Char × CalF))
    (hmp : calibMeasurements s = some mp)
    (hret : extract_calib s = some ret)
    (n : List Char) (v : CalF)
    (hv : calibLookup mp n = some v)
    (hns : ∀ m : List Char, n ≠ m ++ baselineSuffix) :
    (ret.filter (fun e => decide (e.name = n))).length = 1
      ∧ (∀ bv, calibLookup mp (n ++ baselineSuffix) = some bv →
          ret.filter (fun e => decide (e.name = n)) = [⟨n, bv, v⟩]
            ∧ (calibLookup mp (n ++ baselineSuffix ++ baselineSuffix) = none →
                ret.filter (fun e => decide (e.name = n ++ baselineSuffix)) = []))
      ∧ (calibLookup mp (n ++ baselineSuffix) = none →
          ret.filter (fun e => decide (e.name = n)) = [⟨n, calF0, v⟩]) := by
  have hnd : (mp.map Prod.fst).Nodup := by
    rw [calibMeasurements] at hmp
    obtain ⟨l', hl', hbm⟩ := Option.map_eq_some'.mp hmp
    rw [← hbm]
    exact buildMap_keys_nodup l'
  have hretp : ret = calibPairs mp := by
    rw [extract_calib, hmp] at hret
    exact (Option.some.inj hret).symm
  subst hretp
  have hdecomp : calibPairs mp
      = pairedResults mp mp
        ++ (mp.filter (fun q => decide (q.1 ∉ calibRemoved mp mp))).map
            (fun p => (⟨p.1, calF0, p.2⟩ : CalibTestResult)) := by
    rw [calibPairs, calibLoop1_fst, calibLoop1_snd]
  rw [hdecomp]
  have hmemn : (n, v) ∈ mp := calibLookup_mem mp n v hv
  cases hb : calibLookup mp (n ++ baselineSuffix) with
  | some bv0 =>
    have hf1 : (pairedResults mp mp).filter (fun e => decide (e.name = n))
        = [⟨n, bv0, v⟩] := by
      rw [pairedResults_filter_some mp mp n bv0 hb, filter_key_eq mp n v hnd hv]
      rfl
    have hrem : n ∈ calibRemoved mp mp :=
      mem_calibRemoved_subject mp mp n v hmemn (by simp [hb])
    have hf2 : ((mp.filter (fun q => decide (q.1 ∉ calibRemoved mp mp))).map
        (fun p => (⟨p.1, calF0, p.2⟩ : CalibTestResult))).filter
          (fun e => decide (e.name = n)) = [] := by
      rw [map_entry_filter, List.filter_filter]
      have hnil : mp.filter
          (fun a => decide (a.1 = n) && decide (a.1 ∉ calibRemoved mp mp)) = [] := by
        rw [List.filter_eq_nil_iff]
        intro a ha
        by_cases he : a.1 = n
        · simp [he, hrem]
        · simp [he]
      rw [hnil]
      rfl
    have hfull : (pairedResults mp mp
        ++ (mp.filter (fun q => decide (q.1 ∉ calibRemoved mp mp))).map
            (fun p => (⟨p.1, calF0, p.2⟩ : CalibTestResult))).filter
          (fun e => decide (e.name = n)) = [⟨n, bv0, v⟩] := by
      rw [List.filter_append, hf1, hf2, List.append_nil]
    refine ⟨by rw [hfull]; rfl, ?_, ?_⟩
    · intro bv hbv
      have hbv0 : bv = bv0 := (Option.some.inj hbv).symm
      subst hbv0
      refine ⟨hfull, ?_⟩
      intro hbb
      have hg1 : (pairedResults mp mp).filter
          (fun e => decide (e.name = n ++ baselineSuffix)) = [] :=
        pairedResults_filter_none mp mp (n ++ baselineSuffix) hbb
      have hremb : n ++ baselineSuffix ∈ calibRemoved mp mp :=
        mem_calibRemoved_baseline mp mp n v hmemn (by simp [hb])
      have hg2 : ((mp.filter (fun q => decide (q.1 ∉ calibRemoved mp mp))).map
          (fun p => (⟨p.1, calF0, p.2⟩ : CalibTestResult))).filter
            (fun e => decide (e.name = n ++ baselineSuffix)) = [] := by
        rw [map_entry_filter, List.filter_filter]
        have hnil : mp.filter
            (fun a => decide (a.1 = n ++ baselineSuffix)
              && decide (a.1 ∉ calibRemoved mp mp)) = [] := by
          rw [List.filter_eq_nil_iff]
          intro a ha
          by_cases he : a.1 = n ++ baselineSuffix
          · simp [he, hremb]
          · simp [he]
        rw [hnil]
        rfl
      rw [List.filter_append, hg1, hg2, List.append_nil]
    · intro hnone
      cases hnone
  | none =>
    have hf1 : (pairedResults mp mp).filter (fun e => decide (e.name = n)) = [] :=
      pairedResults_filter_none mp mp n hb
    have hnrem : n ∉ calibRemoved mp mp := by
      intro hmem
      obtain ⟨p, hp, hps, hpk⟩ := mem_calibRemoved_inv mp mp n hmem
      rcases hpk with h1 | h1
      · rw [← h1, hb] at hps
        cases hps
      · exact hns p.1 h1
    have hf2 : ((mp.filter (fun q => decide (q.1 ∉ calibRemoved mp mp))).map
        (fun p => (⟨p.1, calF0, p.2⟩ : CalibTestResult))).filter
          (fun e => decide (e.name = n)) = [⟨n, calF0, v⟩] := by
      rw [map_entry_filter, List.filter_filter]
      have hone : mp.filter
          (fun a => decide (a.1 = n) && decide (a.1 ∉ calibRemoved mp mp)) = [(n, v)] := by
        rw [← filter_key_eq mp n v hnd hv]
        apply List.filter_congr
        intro q hq
        by_cases he : q.1 = n
        · simp [he, hnrem]
        · simp [he]
      rw [hone]
      rfl
    have hfull : (pairedResults mp mp
        ++ (mp.filter (fun q => decide (q.1 ∉ calibRemoved mp mp))).map
            (fun p => (⟨p.1, calF0, p.2⟩ : CalibTestResult))).filter
          (fun e => decide (e.name = n)) = [⟨n, calF0, v⟩] := by
      rw [List.filter_append, hf1, hf2, List.nil_append]
    refine ⟨by rw [hfull]; rfl, ?_, fun _ => hfull⟩
    intro bv hbv
    cases hbv

/-- C10 is false as stated: in a report containing measurements `a`,
`a__baseline` and `a__baseline__baseline`, the name `a` lacks the suffix
and `a__baseline` is present, yet the output contains a separate entry
named `a__baseline` (paired with `a__baseline__baseline`). -/
theorem C10_counterexample :
    (calibMeasurements (("│ 0x2::m::test_calibrate_a │ 1 │\n│ 0x2::m::test_calibrate_a__baseline │ 2 │\n│ 0x2::m::test_calibrate_a__baseline__baseline │ 3 │").toList)).map
        (fun mp => ((calibLookup mp ['a']).isSome,
          (calibLookup mp (['a'] ++ baselineSuffix)).isSome))
      = some (true, true)
      ∧ (extract_calib (("│ 0x2::m::test_calibrate_a │ 1 │\n│ 0x2::m::test_calibrate_a__baseline │ 2 │\n│ 0x2::m::test_calibrate_a__baseline__baseline │ 3 │").toList)).map
          (fun ret => ret.filter (fun e => decide (e.name = ['a'] ++ baselineSuffix)))
        = some [⟨"a__baseline".toList, ⟨['3']⟩, ⟨['2']⟩⟩] :=
  ⟨by decide, by decide⟩

/-- C10 witness: a single unpaired measurement `a = 1` yields exactly one
entry, named `a`, with baseline `0.0`. -/
theorem C10_pairing_witness :
    (([(⟨['a'], calF0, ⟨['1']⟩⟩ : CalibTestResult)].filter
        (fun e => decide (e.name = ['a']))).length = 1)
      ∧ [(⟨['a'], calF0, ⟨['1']⟩⟩ : CalibTestResult)].filter
          (fun e => decide (e.name = ['a']))
        = [⟨['a'], calF0, ⟨['1']⟩⟩] := by
  have hns : ∀ m : List Char, ['a'] ≠ m ++ baselineSuffix := by
    intro m hm
    have hlen := congrArg List.length hm
    have h10 : baselineSuffix.length = 10 := by decide
    rw [List.length_append, h10] at hlen
    simp at hlen
  have h := C10_extract_calib_pairing ("│ 0x2::m::test_calibrate_a │ 1 │".toList)
    [⟨['a'], calF0, ⟨['1']⟩⟩] [(['a'], ⟨['1']⟩)] (by decide) (by decide) ['a'] ⟨['1']⟩
    (by decide) hns
  exact ⟨h.1, h.2.2 (by decide)⟩
